import Mathlib

/-!
Verification of the cc-redis-rust core: a shallow embedding of the RESP
codec (`src/resp.rs`), the command interpreter (`src/commads.rs`) and the
store/dispatch logic of the server loop (`src/server.rs`), together with
theorems settling the specification claims about them.

Modelling conventions:
* the parser's character stream (`Peekable<Chars>`) is a `List Char`
  together with the running index `idx` that the Rust struct keeps;
* machine integers are `Int`/`Nat` with explicit range checks where the
  source's `i64`/`usize` semantics matter;
* `Instant` is a `Nat` (milliseconds); `Instant::now()` becomes an explicit
  `now` parameter;
* fallible code returns a sum-like result type; a reachable `panic!`
  (e.g. `.unwrap()` on an `Err`) is a distinguished `panic` outcome.
-/

namespace CCRedis

/-- The protocol value enum from `src/resp.rs` (`enum RespValue`). -/
inductive RespValue where
  | Array (l : List RespValue)
  | BulkString (s : String)
  | SimpleString (s : String)
  | Integer (i : Int)
  | Boolean (b : Bool)
  | SimpleError (s : String)
  | None
  | Eof

/-- The parse-error struct from `src/resp.rs` (`struct RespError`).
The source's `err` constructor always stores the literal character `a`
in the `char` field. -/
structure RespError where
  msg : String
  idx : Nat
  char : Char

/-- Result of one parser operation: the Rust `RespParseResult` plus the
parser state (`remaining chars`, `idx`) that the `RespParser` struct
carries, plus two extra outcomes: `panic` for a reachable Rust panic
(`.unwrap()` on an `Err`) and `fuelOut` for exhaustion of the recursion
fuel used to embed the `parse_next`/`parse_array` mutual recursion. -/
inductive PRes where
  | ok (v : RespValue) (cs : List Char) (idx : Nat)
  | err (e : RespError) (cs : List Char) (idx : Nat)
  | panic
  | fuelOut

namespace RespParser

def mkErr (msg : String) (idx : Nat) : RespError := ⟨msg, idx, 'a'⟩

/-- `RespParser::correct_sep`: check that the next two chars are CR LF,
consuming them.  Each `next()` call bumps `idx` (also at end of input). -/
def correct_sep : List Char → Nat → PRes
  | [], idx => .err (mkErr "unexpected eof" (idx + 1)) [] (idx + 1)
  | c :: rest, idx =>
    if c = '\r' then
      match rest with
      | [] => .err (mkErr "unexpected eof" (idx + 2)) [] (idx + 2)
      | c2 :: rest2 =>
        if c2 = '\n' then .ok .None rest2 (idx + 2)
        else .err (mkErr ("LF separator expected, found " ++ String.singleton c2) (idx + 2)) rest2 (idx + 2)
    else .err (mkErr ("CR separator expected, found " ++ String.singleton c) (idx + 1)) rest (idx + 1)

/-- `RespParser::parse_simple_string` with its accumulator string made
explicit: push chars until a CR is peeked; on CR check the separator; if
the input runs out first, return `Ok` with what was collected. -/
def parse_simple_string : List Char → Nat → List Char → PRes
  | [], idx, acc => .ok (.SimpleString ⟨acc⟩) [] idx
  | c :: rest, idx, acc =>
    if c = '\r' then
      match correct_sep (c :: rest) idx with
      | .ok _ cs j => .ok (.SimpleString ⟨acc⟩) cs j
      | r => r
    else parse_simple_string rest (idx + 1) (acc ++ [c])

/-- The digit-collecting `while` loop of `RespParser::parse_int`: stop at a
peeked CR, push digits, error on anything else or on end of input. -/
def parse_int_digits : List Char → Nat → List Char →
    (RespError × List Char × Nat) ⊕ (List Char × List Char × Nat)
  | [], idx, _ => .inl (mkErr "Unterminated integer" idx, [], idx)
  | c :: rest, idx, s =>
    if c = '\r' then .inr (s, c :: rest, idx)
    else if c.isDigit then parse_int_digits rest (idx + 1) (s ++ [c])
    else .inl (mkErr ("invalid char found while parsing integer: " ++ String.singleton c) idx, c :: rest, idx)

/-- Value of a most-significant-first decimal digit string. -/
def digitsVal (l : List Char) : Nat :=
  l.foldl (fun a c => 10 * a + (c.toNat - 48)) 0

/-- Rust's `str::parse::<i64>()` on the collected characters: an optional
sign followed by at least one digit, with the `i64` range check; `none`
is Rust's `Err(ParseIntError)`. -/
def rustParseI64 (cs : List Char) : Option Int :=
  let sd : Int × List Char :=
    match cs with
    | c :: r => if c = '+' then (1, r) else if c = '-' then (-1, r) else (1, cs)
    | [] => (1, [])
  let ds := sd.2
  if ds = [] ∨ ¬ (ds.all Char.isDigit) then none
  else
    let n : Int := sd.1 * (digitsVal ds : Nat)
    if -(2 ^ 63) ≤ n ∧ n ≤ 2 ^ 63 - 1 then some n else none

/-- Rust's `str::parse::<usize>()`: optional `+`, at least one digit,
`usize` (64-bit) range check. -/
def rustParseUsize (cs : List Char) : Option Nat :=
  let ds := match cs with
    | c :: _ => if c = '+' then cs.tail else cs
    | [] => []
  if ds = [] ∨ ¬ (ds.all Char.isDigit) then none
  else
    let n : Nat := digitsVal ds
    if n < 2 ^ 64 then some n else none

/-- Tail of `RespParser::parse_int` after the sign has been handled: run
the digit loop, check the separator, then `s.parse::<i64>().unwrap()` —
which panics when the collected string is a bare sign (or out of range). -/
def parse_int_go (s : List Char) (cs : List Char) (idx : Nat) : PRes :=
  match parse_int_digits cs idx s with
  | .inl (e, cs1, j1) => .err e cs1 j1
  | .inr (s1, cs1, j1) =>
    match correct_sep cs1 j1 with
    | .ok _ cs2 j2 =>
      match rustParseI64 s1 with
      | some n => .ok (.Integer n) cs2 j2
      | none => .panic
    | r => r

/-- `RespParser::parse_int`: peek at the first char — consume a sign,
keep a digit for the loop, error on anything else (end of input falls
through to the loop, which reports "Unterminated integer"). -/
def parse_int (cs : List Char) (idx : Nat) : PRes :=
  match cs with
  | [] => parse_int_go [] [] idx
  | c :: rest =>
    if c = '-' ∨ c = '+' then parse_int_go [c] rest (idx + 1)
    else if c.isDigit then parse_int_go [] (c :: rest) idx
    else .err (mkErr ("invalid character while parsing integer: " ++ String.singleton c) idx) (c :: rest) idx

/-- `RespParser::parse_bool`. -/
def parse_bool : List Char → Nat → PRes
  | [], idx => .err (mkErr "unexpected eof" (idx + 1)) [] (idx + 1)
  | c :: rest, idx =>
    if c = 'f' then
      match correct_sep rest (idx + 1) with
      | .ok _ cs j => .ok (.Boolean false) cs j
      | r => r
    else if c = 't' then
      match correct_sep rest (idx + 1) with
      | .ok _ cs j => .ok (.Boolean true) cs j
      | r => r
    else .err (mkErr ("invalid value for boolean: " ++ String.singleton c) (idx + 1)) rest (idx + 1)

/-- The size-digit loop of `RespParser::parse_bulk_string`: collect digits
while the peeked char is a digit. -/
def bulk_digits : List Char → Nat → List Char → (List Char × List Char × Nat)
  | [], idx, s => (s, [], idx)
  | c :: rest, idx, s =>
    if c.isDigit then bulk_digits rest (idx + 1) (s ++ [c])
    else (s, c :: rest, idx)

/-- The `for _ in 0..size` content loop of `parse_bulk_string`: take
exactly `n` raw chars, failing with "unexpected eof" if input runs out. -/
def take_chars : Nat → List Char → Nat → List Char →
    (RespError × List Char × Nat) ⊕ (List Char × List Char × Nat)
  | 0, cs, idx, acc => .inr (acc, cs, idx)
  | _ + 1, [], idx, _ => .inl (mkErr "unexpected eof" (idx + 1), [], idx + 1)
  | n + 1, c :: rest, idx, acc => take_chars n rest (idx + 1) (acc ++ [c])

/-- `RespParser::parse_bulk_string`. -/
def parse_bulk_string (cs : List Char) (idx : Nat) : PRes :=
  match bulk_digits cs idx [] with
  | (s, cs1, j1) =>
    match rustParseUsize s with
    | none => .err (mkErr ("failed to parse bulk string size " ++ String.mk s) j1) cs1 j1
    | some size =>
      match correct_sep cs1 j1 with
      | .ok _ cs2 j2 =>
        match take_chars size cs2 j2 [] with
        | .inl (e, cs3, j3) => .err e cs3 j3
        | .inr (content, cs3, j3) =>
          match correct_sep cs3 j3 with
          | .ok _ cs4 j4 => .ok (.BulkString ⟨content⟩) cs4 j4
          | r => r
      | r => r

/-- `RespParser::parse_simple_error`: delegate to `parse_simple_string`,
remapping any non-`SimpleString` outcome to a generic error. -/
def parse_simple_error (cs : List Char) (idx : Nat) : PRes :=
  match parse_simple_string cs idx [] with
  | .ok (.SimpleString s) cs1 j1 => .ok (.SimpleError s) cs1 j1
  | .ok _ cs1 j1 => .err (mkErr "Failed to parse simple error" j1) cs1 j1
  | .err _ cs1 j1 => .err (mkErr "Failed to parse simple error" j1) cs1 j1
  | r => r

mutual

/-- `RespParser::parse_next`: consume the type tag and dispatch.  The
`fuel` argument only feeds the `parse_array` recursion; the top-level
entry point `parse` below supplies enough fuel for any input. -/
def parse_next (fuel : Nat) (cs : List Char) (idx : Nat) : PRes :=
  match fuel with
  | 0 => .fuelOut
  | fuel + 1 =>
    match cs with
    | [] => .ok .Eof [] (idx + 1)
    | c :: rest =>
      if c = '+' then parse_simple_string rest (idx + 1) []
      else if c = ':' then parse_int rest (idx + 1)
      else if c = '#' then parse_bool rest (idx + 1)
      else if c = '$' then parse_bulk_string rest (idx + 1)
      else if c = '*' then parse_array fuel rest (idx + 1)
      else if c = '-' then parse_simple_error rest (idx + 1)
      else .err (mkErr ("invalid type identifier found: " ++ String.singleton c) (idx + 1)) rest (idx + 1)
termination_by (fuel, 0, 0)

/-- `RespParser::parse_array`: parse the element count with `parse_int`,
then run the element loop (`for _ in 0..size`, empty for nonpositive
counts since `size` is an `i64`). -/
def parse_array (fuel : Nat) (cs : List Char) (idx : Nat) : PRes :=
  match parse_int cs idx with
  | .ok (.Integer n) cs1 j1 => parse_array_loop fuel n.toNat [] cs1 j1
  | .ok _ cs1 j1 => .err (mkErr "invalid size" j1) cs1 j1
  | r => r
termination_by (fuel, 1, 0)

/-- The element loop of `parse_array`, pushing each parsed value. -/
def parse_array_loop (fuel : Nat) (k : Nat) (acc : List RespValue)
    (cs : List Char) (idx : Nat) : PRes :=
  match k with
  | 0 => .ok (.Array acc) cs idx
  | k + 1 =>
    match parse_next fuel cs idx with
    | .ok v cs1 j1 => parse_array_loop fuel k (acc ++ [v]) cs1 j1
    | r => r
termination_by (fuel, 0, k)

end

/-- One top-level parse of a character stream, as the server performs it:
`fuel = length + 1` is always sufficient because every recursive
`parse_next` call consumes at least the tag character. -/
def parse (cs : List Char) : PRes := parse_next (cs.length + 1) cs 0

/-- The value produced by a successful top-level parse. -/
def parseValue (cs : List Char) : Option RespValue :=
  match parse cs with
  | .ok v _ _ => some v
  | _ => none

end RespParser

/-- Most-significant-digit-first decimal digits of a positive number
(empty for 0); used by the serializer's decimal renderings. -/
def natDigitsAux (n : Nat) : List Char :=
  if h : n = 0 then []
  else natDigitsAux (n / 10) ++ [Nat.digitChar (n % 10)]
termination_by n
decreasing_by
  exact Nat.div_lt_self (Nat.pos_of_ne_zero h) (by omega)

/-- Decimal rendering of a natural number. -/
def natToDec (n : Nat) : List Char :=
  if n = 0 then ['0'] else natDigitsAux n

/-- Decimal rendering of an integer, as Rust's `{}` formatting of an
`i64` produces it: a `-` sign for negatives, no sign otherwise. -/
def intToDec (i : Int) : List Char :=
  if i < 0 then '-' :: natToDec i.natAbs else natToDec i.toNat

mutual

/-- Modelled from the spec: `RespValue::serialize` is called from
`src/server.rs` but its definition is not among the sources.  Spec §4.1:
SimpleString → `+<s>\r\n`; Integer → `:<n>\r\n`; Boolean → `#t\r\n` /
`#f\r\n`; BulkString → `$<len>\r\n<bytes>\r\n` with `len` the exact byte
length of the payload; SimpleError → `-<s>\r\n`; Array → `*<count>\r\n`
followed by each element's serialization; serializing `None` or `Eof` is
unsupported (the `.unwrap()` at the call sites would panic), modelled as
`none`. -/
def RespValue.serialize : RespValue → Option (List Char)
  | .SimpleString s => some ('+' :: s.data ++ ['\r', '\n'])
  | .Integer i => some (':' :: intToDec i ++ ['\r', '\n'])
  | .Boolean b => some ('#' :: (if b then 't' else 'f') :: ['\r', '\n'])
  | .BulkString s => some ('$' :: natToDec s.utf8ByteSize ++ ['\r', '\n'] ++ s.data ++ ['\r', '\n'])
  | .SimpleError s => some ('-' :: s.data ++ ['\r', '\n'])
  | .Array l =>
    match serializeList l with
    | some body => some ('*' :: natToDec l.length ++ ['\r', '\n'] ++ body)
    | none => none
  | .None => none
  | .Eof => none

/-- Concatenated serialization of a list of values (`none` as soon as one
element is unserializable). -/
def serializeList : List RespValue → Option (List Char)
  | [] => some []
  | v :: r =>
    match v.serialize, serializeList r with
    | some a, some b => some (a ++ b)
    | _, _ => none

end

mutual

/-- Number of protocol values in a value tree (the number of
`parse_next` invocations needed to parse it); drives the round-trip
induction. -/
def nodes : RespValue → Nat
  | .Array l => 1 + nodesList l
  | _ => 1

def nodesList : List RespValue → Nat
  | [] => 0
  | v :: r => nodes v + nodesList r

end

mutual

/-- The representable values of the round-trip property: built from
SimpleString / Integer / Boolean / BulkString / Array only, with
SimpleString payloads free of CR (the data-model invariant), Integer
payloads in `i64` range, BulkString payloads whose UTF-8 byte length
equals their character count and fits `usize`, and array lengths within
`i64`. -/
def good : RespValue → Bool
  | .SimpleString s => s.data.all (fun c => c != '\r')
  | .Integer i => decide (-(2 ^ 63) ≤ i) && decide (i ≤ 2 ^ 63 - 1)
  | .Boolean _ => true
  | .BulkString s => decide (s.utf8ByteSize = s.length) && decide (s.utf8ByteSize < 2 ^ 64)
  | .Array l => decide (l.length ≤ 2 ^ 63 - 1) && goodList l
  | _ => false

def goodList : List RespValue → Bool
  | [] => true
  | v :: r => good v && goodList r

end

/-- `struct StoredValue` from `src/server.rs`: the stored string and the
optional absolute expiry instant (an `Instant`, modelled as milliseconds
since an arbitrary epoch). -/
structure StoredValue where
  value : String
  px : Option Nat
deriving DecidableEq

def StoredValue.new (value : String) (px : Option Nat) : StoredValue := ⟨value, px⟩

/-- `struct SetCommand` from `src/commads.rs`. -/
structure SetCommand where
  key : String
  value : StoredValue
deriving DecidableEq

/-- `enum InfoType` from `src/commads.rs`. -/
inductive InfoType where
  | Replication
deriving DecidableEq

/-- `impl InfoType { fn from_str }`: only the exact string
`"replication"` is recognized. -/
def InfoType.from_str (value : String) : Except String InfoType :=
  if value = "replication" then .ok .Replication
  else .error ("invalid info specifier " ++ value)

/-- `enum ReplconfType` from `src/commads.rs`. -/
inductive ReplconfType where
  | ListeningPort (n : Nat)
  | Capa (s : String)
deriving DecidableEq

/-- `enum Command` from `src/commads.rs`. -/
inductive Command where
  | Ping
  | Echo (v : RespValue)
  | Llen
  | Shutdown
  | Set (sc : SetCommand)
  | Get (k : String)
  | Info (t : InfoType)
  | Replconf (r : ReplconfType)

/-- `struct CommandErr` from `src/commads.rs`. -/
structure CommandErr where
  msg : String
deriving DecidableEq

abbrev CommandParseResult := Except CommandErr Command

namespace CommandParser

/-- `CommandParser::ping`: consumes nothing; trailing elements ignored. -/
def ping (_ : List RespValue) : CommandParseResult := .ok .Ping

/-- `CommandParser::shutdown`: consumes nothing. -/
def shutdown (_ : List RespValue) : CommandParseResult := .ok .Shutdown

/-- `CommandParser::echo`: one element of any type. -/
def echo : List RespValue → CommandParseResult
  | v :: _ => .ok (.Echo v)
  | [] => .error ⟨"item after ECHO expected"⟩

/-- `CommandParser::info`: one SimpleString/BulkString element, passed as
received to `InfoType::from_str`. -/
def info : List RespValue → CommandParseResult
  | .BulkString s :: _ =>
    match InfoType.from_str s with
    | .ok t => .ok (.Info t)
    | .error e => .error ⟨e⟩
  | .SimpleString s :: _ =>
    match InfoType.from_str s with
    | .ok t => .ok (.Info t)
    | .error e => .error ⟨e⟩
  | _ :: _ => .error ⟨"invalid type expected SS or BS"⟩
  | [] => .error ⟨"expected infotype sepcifier after INFO command"⟩

/-- `CommandParser::get`: one SimpleString/BulkString element as the key. -/
def get : List RespValue → CommandParseResult
  | .BulkString s :: _ => .ok (.Get s)
  | .SimpleString s :: _ => .ok (.Get s)
  | _ :: _ => .error ⟨"invalid type expected SS or BS"⟩
  | [] => .error ⟨"key expected after get"⟩

/-- The value-after-`PX` step of `CommandParser::set`: a positive Integer
becomes the absolute expiry `now + i` milliseconds; anything else is an
error. -/
def set_px_value (now : Nat) (key value : String) : List RespValue → CommandParseResult
  | .Integer i :: _ =>
    if 0 < i then .ok (.Set ⟨key, .new value (some (now + i.toNat))⟩)
    else .error ⟨"expected positive integer after PX in SET"⟩
  | _ :: _ => .error ⟨"expected positive integer after PX in SET"⟩
  | [] => .error ⟨"expected value after PX"⟩

/-- The option-peek step of `CommandParser::set`: a peeked
SimpleString/BulkString equal to `PX` starts option parsing; any other
peeked value (or end of input) leaves the expiry absent. -/
def set_px (now : Nat) (key value : String) : List RespValue → CommandParseResult
  | .BulkString s :: rest =>
    if s = "PX" then set_px_value now key value rest
    else .ok (.Set ⟨key, .new value none⟩)
  | .SimpleString s :: rest =>
    if s = "PX" then set_px_value now key value rest
    else .ok (.Set ⟨key, .new value none⟩)
  | _ :: _ => .ok (.Set ⟨key, .new value none⟩)
  | [] => .ok (.Set ⟨key, .new value none⟩)

/-- The value step of `CommandParser::set`. -/
def set_value (now : Nat) (key : String) : List RespValue → CommandParseResult
  | .BulkString s :: rest => set_px now key s rest
  | .SimpleString s :: rest => set_px now key s rest
  | _ :: _ => .error ⟨"invalid type expected SS or BS"⟩
  | [] => .error ⟨"value expected after key in set"⟩

/-- `CommandParser::set`: key, value, then the optional `PX` lookahead. -/
def set (now : Nat) : List RespValue → CommandParseResult
  | .BulkString s :: rest => set_value now s rest
  | .SimpleString s :: rest => set_value now s rest
  | _ :: _ => .error ⟨"invalid type expected SS or BS"⟩
  | [] => .error ⟨"key expected after set"⟩

/-- Rust's `str::to_uppercase` on the command name (character-wise
uppercasing; agrees with it on the ASCII command names involved). -/
def toUpperStr (s : String) : String := ⟨s.data.map Char.toUpper⟩

/-- The command-name dispatch of `CommandParser::parse_next`: the name is
upper-cased before matching (argument values are not). -/
def run_command (now : Nat) (s : String) (rest : List RespValue) : CommandParseResult :=
  let u := toUpperStr s
  if u = "PING" then ping rest
  else if u = "ECHO" then echo rest
  else if u = "SHUTDOWN" then shutdown rest
  else if u = "SET" then set now rest
  else if u = "GET" then get rest
  else if u = "INFO" then info rest
  else .error ⟨"invalid command provided: " ++ u⟩

/-- `CommandParser::parse_next`: the first element must be a
SimpleString or BulkString naming the command. -/
def parse_next (now : Nat) : List RespValue → CommandParseResult
  | .BulkString s :: rest => run_command now s rest
  | .SimpleString s :: rest => run_command now s rest
  | _ => .error ⟨"can only parse command from BulkString or SimpleString"⟩

end CommandParser

/-- The server's key-value storage (`HashMap<String, StoredValue>`),
modelled as an association list with unique keys. -/
abbrev Storage := List (String × StoredValue)

/-- `HashMap::get`. -/
def storageGet : Storage → String → Option StoredValue
  | [], _ => none
  | (k, v) :: r, key => if k = key then some v else storageGet r key

/-- `HashMap::insert`: bind `key` to `v`, replacing any previous binding. -/
def storageInsert (key : String) (v : StoredValue) (st : Storage) : Storage :=
  (key, v) :: st.filter (fun p => decide (p.1 ≠ key))

/-- The expiry test of `Server::remove_expired`:
`v.px.is_some_and(|px| px <= Instant::now())`. -/
def pxExpired (now : Nat) (v : StoredValue) : Bool :=
  match v.px with
  | some t => decide (t ≤ now)
  | none => false

/-- `Server::remove_expired`: collect every key whose value's expiry has
passed and remove those keys; on a unique-key map this is a filter. -/
def remove_expired (now : Nat) (st : Storage) : Storage :=
  st.filter (fun p => ! pxExpired now p.2)

/-- `enum ServerRole` and its `as_str` from `src/server.rs`. -/
inductive ServerRole where
  | Master
  | Slave
deriving DecidableEq

def ServerRole.as_str : ServerRole → String
  | .Master => "role:master"
  | .Slave => "role:slave"

/-- `struct Replication` from `src/server.rs` (the run id is a startup
parameter here). -/
structure Replication where
  role : ServerRole
  replicaof : Option (String × Nat)
  master_replid : String
  master_repl_offset : Nat

/-- `Replication::serialize`: the three info lines joined with CR LF,
wrapped as a serialized BulkString. -/
def Replication.serialize (r : Replication) : Option (List Char) :=
  let role := r.role.as_str
  let master_replid := "master_replid:" ++ r.master_replid
  let master_repl_offset := "master_repl_offset:" ++ toString r.master_repl_offset
  (RespValue.BulkString (String.intercalate "\r\n" [role, master_replid, master_repl_offset])).serialize

/-- The server state that command dispatch touches: the storage map and
the shutdown flag. -/
structure ServerSt where
  storage : Storage
  shutdown : Bool

/-- The reply value built by the `Command::Get` arm of
`Server::poll_streams`: the stored string if the key is physically
present (no expiry check), the empty string otherwise. -/
def getReplyValue (st : Storage) (key : String) : RespValue :=
  .BulkString (match storageGet st key with
    | some v => v.value
    | none => "")

/-- The command-dispatch `match` of `Server::poll_streams`: the new
server state and the reply bytes.  A `none` reply marks a Rust panic on
that path (`todo!()` for `Llen`, `.unwrap()` of a failed serialize). -/
def dispatchCommand (c : Command) (s : ServerSt) (repl : Replication) :
    ServerSt × Option (List Char) :=
  match c with
  | .Ping => (s, (RespValue.SimpleString "PONG").serialize)
  | .Echo v => (s, v.serialize)
  | .Llen => (s, none)
  | .Shutdown => ({ s with shutdown := true }, (RespValue.SimpleString "OK").serialize)
  | .Set sc => ({ s with storage := storageInsert sc.key sc.value s.storage },
      (RespValue.BulkString "OK").serialize)
  | .Get key => (s, (getReplyValue s.storage key).serialize)
  | .Info .Replication => (s, repl.serialize)
  | .Replconf _ => (s, some [Char.ofNat 0])

/-- Serialize-then-parse, the composite of the round-trip property. -/
def parse_roundtrip (v : RespValue) : Option RespValue :=
  (RespValue.serialize v).bind RespParser.parseValue

open RespParser

theorem string_eta (s : String) : String.mk s.data = s := rfl

theorem digitsVal_append (l : List Char) (c : Char) :
    digitsVal (l ++ [c]) = 10 * digitsVal l + (c.toNat - 48) := by
  simp [digitsVal, List.foldl_append]

theorem digitChar_isDigit {m : Nat} (h : m < 10) : (Nat.digitChar m).isDigit = true := by
  interval_cases m <;> decide

theorem digitChar_val {m : Nat} (h : m < 10) : (Nat.digitChar m).toNat - 48 = m := by
  interval_cases m <;> decide

theorem isDigit_ne_cr {c : Char} (h : c.isDigit = true) : c ≠ '\r' := by
  intro he; subst he; exact absurd h (by decide)

theorem isDigit_ne_minus {c : Char} (h : c.isDigit = true) : c ≠ '-' := by
  intro he; subst he; exact absurd h (by decide)

theorem isDigit_ne_plus {c : Char} (h : c.isDigit = true) : c ≠ '+' := by
  intro he; subst he; exact absurd h (by decide)

theorem natDigitsAux_digits (n : Nat) : ∀ c ∈ natDigitsAux n, c.isDigit = true := by
  induction n using Nat.strong_induction_on with
  | _ n ih =>
    rw [natDigitsAux]
    split
    · simp
    · intro c hc
      rw [List.mem_append] at hc
      rcases hc with hc | hc
      · exact ih (n / 10) (Nat.div_lt_self (Nat.pos_of_ne_zero (by assumption)) (by omega)) c hc
      · simp only [List.mem_singleton] at hc
        subst hc
        exact digitChar_isDigit (Nat.mod_lt n (by omega))

theorem digitsVal_natDigitsAux (n : Nat) : digitsVal (natDigitsAux n) = n := by
  induction n using Nat.strong_induction_on with
  | _ n ih =>
    rw [natDigitsAux]
    split
    · simp [digitsVal]; omega
    · rw [digitsVal_append, ih (n / 10) (Nat.div_lt_self (Nat.pos_of_ne_zero (by assumption)) (by omega)),
        digitChar_val (Nat.mod_lt n (by omega))]
      omega

theorem natToDec_digits (n : Nat) : ∀ c ∈ natToDec n, c.isDigit = true := by
  rw [natToDec]
  split
  · intro c hc; simp only [List.mem_singleton] at hc; subst hc; decide
  · exact natDigitsAux_digits n

theorem digitsVal_natToDec (n : Nat) : digitsVal (natToDec n) = n := by
  rw [natToDec]
  split
  · subst n; decide
  · exact digitsVal_natDigitsAux n

theorem natToDec_ne_nil (n : Nat) : natToDec n ≠ [] := by
  rw [natToDec]
  split
  · simp
  · rw [natDigitsAux]
    split
    · omega
    · simp

theorem rustParseUsize_natToDec {n : Nat} (h : n < 2 ^ 64) :
    rustParseUsize (natToDec n) = some n := by
  obtain ⟨d, ds, he⟩ := List.exists_cons_of_ne_nil (natToDec_ne_nil n)
  have hd : d.isDigit = true := natToDec_digits n d (by rw [he]; exact List.mem_cons_self d ds)
  have hall : (natToDec n).all Char.isDigit = true := by
    rw [List.all_eq_true]; exact natToDec_digits n
  rw [rustParseUsize.eq_def, he]
  simp only [if_neg (isDigit_ne_plus hd)]
  rw [← he, if_neg (by simp [natToDec_ne_nil n, hall]), digitsVal_natToDec, if_pos h]

theorem rustParseI64_natToDec {n : Nat} (h : n ≤ 2 ^ 63 - 1) :
    rustParseI64 (natToDec n) = some (n : Int) := by
  obtain ⟨d, ds, he⟩ := List.exists_cons_of_ne_nil (natToDec_ne_nil n)
  have hd : d.isDigit = true := natToDec_digits n d (by rw [he]; exact List.mem_cons_self d ds)
  have hall : (natToDec n).all Char.isDigit = true := by
    rw [List.all_eq_true]; exact natToDec_digits n
  rw [rustParseI64.eq_def, he]
  simp only [if_neg (isDigit_ne_plus hd), if_neg (isDigit_ne_minus hd)]
  rw [← he]
  simp only [if_neg (by simp [natToDec_ne_nil n, hall] : ¬ (natToDec n = [] ∨ ¬ (natToDec n).all Char.isDigit = true))]
  rw [digitsVal_natToDec]
  rw [if_pos (by constructor <;> omega), one_mul]

theorem rustParseI64_neg_natToDec {n : Nat} (h : n ≤ 2 ^ 63) :
    rustParseI64 ('-' :: natToDec n) = some (-(n : Int)) := by
  rw [rustParseI64.eq_def]
  norm_num
  simp only [show ('-' = '+') = False from by decide, if_false]
  rw [digitsVal_natToDec]
  exact ⟨⟨natToDec_ne_nil n, natToDec_digits n⟩, ⟨by omega, by omega⟩, by omega⟩

theorem correct_sep_crlf (rest : List Char) (idx : Nat) :
    correct_sep ('\r' :: '\n' :: rest) idx = .ok .None rest (idx + 2) := by
  simp [correct_sep]

theorem parse_simple_string_term (l : List Char) (hl : ∀ c ∈ l, c ≠ '\r') :
    ∀ acc rest idx,
      parse_simple_string (l ++ '\r' :: '\n' :: rest) idx acc
        = .ok (.SimpleString ⟨acc ++ l⟩) rest (idx + l.length + 2) := by
  induction l with
  | nil =>
    intro acc rest idx
    simp only [List.nil_append, List.append_nil]
    rw [parse_simple_string, if_pos rfl, correct_sep_crlf]
    rfl
  | cons c t ih =>
    intro acc rest idx
    rw [List.cons_append, parse_simple_string,
      if_neg (hl c (List.mem_cons_self c t)),
      ih (fun x hx => hl x (List.mem_cons_of_mem c hx)) (acc ++ [c]) rest (idx + 1)]
    simp only [List.append_assoc, List.singleton_append, List.length_cons]
    rw [show idx + 1 + t.length + 2 = idx + (t.length + 1) + 2 from by omega]

theorem parse_simple_string_eof (l : List Char) (hl : ∀ c ∈ l, c ≠ '\r') :
    ∀ acc idx,
      parse_simple_string l idx acc = .ok (.SimpleString ⟨acc ++ l⟩) [] (idx + l.length) := by
  induction l with
  | nil => intro acc idx; simp [parse_simple_string]
  | cons c t ih =>
    intro acc idx
    rw [parse_simple_string, if_neg (hl c (List.mem_cons_self c t)),
      ih (fun x hx => hl x (List.mem_cons_of_mem c hx)) (acc ++ [c]) (idx + 1)]
    simp only [List.append_assoc, List.singleton_append, List.length_cons]
    rw [show idx + 1 + t.length = idx + (t.length + 1) from by omega]

theorem parse_int_digits_term (l : List Char) (hl : ∀ c ∈ l, c.isDigit = true) :
    ∀ s rest idx,
      parse_int_digits (l ++ '\r' :: rest) idx s
        = .inr (s ++ l, '\r' :: rest, idx + l.length) := by
  induction l with
  | nil => intro s rest idx; simp [parse_int_digits]
  | cons c t ih =>
    intro s rest idx
    have hc := hl c (List.mem_cons_self c t)
    rw [List.cons_append, parse_int_digits, if_neg (isDigit_ne_cr hc), if_pos hc,
      ih (fun x hx => hl x (List.mem_cons_of_mem c hx)) (s ++ [c]) rest (idx + 1)]
    simp only [List.append_assoc, List.singleton_append, List.length_cons]
    rw [show idx + 1 + t.length = idx + (t.length + 1) from by omega]

theorem bulk_digits_term (l : List Char) (hl : ∀ c ∈ l, c.isDigit = true)
    (c0 : Char) (hc0 : c0.isDigit = false) :
    ∀ s rest idx,
      bulk_digits (l ++ c0 :: rest) idx s = (s ++ l, c0 :: rest, idx + l.length) := by
  induction l with
  | nil => intro s rest idx; simp [bulk_digits, hc0]
  | cons c t ih =>
    intro s rest idx
    have hc := hl c (List.mem_cons_self c t)
    rw [List.cons_append, bulk_digits, if_pos hc,
      ih (fun x hx => hl x (List.mem_cons_of_mem c hx)) (s ++ [c]) rest (idx + 1)]
    simp only [List.append_assoc, List.singleton_append, List.length_cons]
    rw [show idx + 1 + t.length = idx + (t.length + 1) from by omega]

theorem take_chars_exact (l : List Char) :
    ∀ acc rest idx,
      take_chars l.length (l ++ rest) idx acc = .inr (acc ++ l, rest, idx + l.length) := by
  induction l with
  | nil => intro acc rest idx; simp [take_chars]
  | cons c t ih =>
    intro acc rest idx
    rw [List.length_cons, List.cons_append, take_chars, ih (acc ++ [c]) rest (idx + 1)]
    simp only [List.append_assoc, List.singleton_append, List.length_cons]
    rw [show idx + 1 + t.length = idx + (t.length + 1) from by omega]

theorem intToDec_ofNat (n : Nat) : intToDec (n : Int) = natToDec n := by
  rw [intToDec, if_neg (by omega)]
  congr 1

theorem parse_int_rt (i : Int) (h1 : -(2 ^ 63) ≤ i) (h2 : i ≤ 2 ^ 63 - 1) (rest : List Char) (idx : Nat) :
    parse_int (intToDec i ++ '\r' :: '\n' :: rest) idx
      = .ok (.Integer i) rest (idx + (intToDec i).length + 2) := by
  by_cases hneg : i < 0
  · rw [intToDec, if_pos hneg, List.cons_append, parse_int,
      if_pos (Or.inl rfl), parse_int_go,
      parse_int_digits_term (natToDec i.natAbs) (natToDec_digits _) ['-'] ('\n' :: rest) (idx + 1)]
    simp only [List.singleton_append, correct_sep_crlf,
      rustParseI64_neg_natToDec (show i.natAbs ≤ 2 ^ 63 from by omega)]
    rw [show (-(i.natAbs : Int)) = i from by omega]
    simp only [List.length_cons]
    rw [show idx + 1 + (natToDec i.natAbs).length + 2 = idx + ((natToDec i.natAbs).length + 1) + 2 from by omega]
  · rw [intToDec, if_neg hneg]
    obtain ⟨d, ds, he⟩ := List.exists_cons_of_ne_nil (natToDec_ne_nil i.toNat)
    have hd : d.isDigit = true := natToDec_digits _ d (by rw [he]; exact List.mem_cons_self d ds)
    rw [he, List.cons_append, parse_int,
      if_neg (by push_neg; exact ⟨isDigit_ne_minus hd, isDigit_ne_plus hd⟩),
      if_pos hd, ← List.cons_append, ← he, parse_int_go,
      parse_int_digits_term (natToDec i.toNat) (natToDec_digits _) [] ('\n' :: rest) idx]
    simp only [List.nil_append, correct_sep_crlf,
      rustParseI64_natToDec (show i.toNat ≤ 2 ^ 63 - 1 from by omega)]
    rw [show ((i.toNat : Nat) : Int) = i from by omega]

theorem parse_bool_rt (b : Bool) (rest : List Char) (idx : Nat) :
    parse_bool ((if b then 't' else 'f') :: '\r' :: '\n' :: rest) idx
      = .ok (.Boolean b) rest (idx + 3) := by
  cases b <;> simp [parse_bool, correct_sep]

theorem parse_bulk_string_rt (s : String) (hsz : s.utf8ByteSize = s.length)
    (hrange : s.utf8ByteSize < 2 ^ 64) (rest : List Char) (idx : Nat) :
    parse_bulk_string (natToDec s.utf8ByteSize ++ '\r' :: '\n' :: (s.data ++ '\r' :: '\n' :: rest)) idx
      = .ok (.BulkString s) rest (idx + (natToDec s.utf8ByteSize).length + 2 + s.length + 2) := by
  rw [parse_bulk_string,
    bulk_digits_term (natToDec s.utf8ByteSize) (natToDec_digits _) '\r' (by decide) [] _ idx]
  simp only [List.nil_append, rustParseUsize_natToDec hrange, correct_sep_crlf]
  rw [hsz, show s.length = s.data.length from rfl, take_chars_exact s.data [] ('\r' :: '\n' :: rest) _]
  simp only [List.nil_append, correct_sep_crlf, string_eta]

theorem parse_next_tag_ss (f : Nat) (rest : List Char) (idx : Nat) :
    parse_next (f + 1) ('+' :: rest) idx = parse_simple_string rest (idx + 1) [] := by
  simp [parse_next]

theorem parse_next_tag_int (f : Nat) (rest : List Char) (idx : Nat) :
    parse_next (f + 1) (':' :: rest) idx = parse_int rest (idx + 1) := by
  simp [parse_next]

theorem parse_next_tag_bool (f : Nat) (rest : List Char) (idx : Nat) :
    parse_next (f + 1) ('#' :: rest) idx = parse_bool rest (idx + 1) := by
  simp [parse_next]

theorem parse_next_tag_bulk (f : Nat) (rest : List Char) (idx : Nat) :
    parse_next (f + 1) ('$' :: rest) idx = parse_bulk_string rest (idx + 1) := by
  simp [parse_next]

theorem parse_next_tag_arr (f : Nat) (rest : List Char) (idx : Nat) :
    parse_next (f + 1) ('*' :: rest) idx = parse_array f rest (idx + 1) := by
  simp [parse_next]

theorem nodes_pos (v : RespValue) : 1 ≤ nodes v := by
  cases v <;> simp [nodes]

theorem nodesList_le {v : RespValue} {l : List RespValue} (h : v ∈ l) :
    nodes v ≤ nodesList l := by
  induction l with
  | nil => cases h
  | cons w t ih =>
    rw [nodesList]
    rcases List.mem_cons.mp h with rfl | h2
    · omega
    · have := ih h2; omega

theorem goodList_mem {l : List RespValue} (h : goodList l = true) {v : RespValue}
    (hv : v ∈ l) : good v = true := by
  induction l with
  | nil => cases hv
  | cons w t ih =>
    rw [goodList, Bool.and_eq_true] at h
    rcases List.mem_cons.mp hv with rfl | h2
    · exact h.1
    · exact ih h.2 h2

theorem serializeList_cons_inv {v : RespValue} {t : List RespValue} {body : List Char}
    (h : serializeList (v :: t) = some body) :
    ∃ a b, v.serialize = some a ∧ serializeList t = some b ∧ body = a ++ b := by
  rw [serializeList] at h
  cases hva : v.serialize with
  | none => rw [hva] at h; cases hvt : serializeList t <;> rw [hvt] at h <;> cases h
  | some a =>
    rw [hva] at h
    cases hvt : serializeList t with
    | none => rw [hvt] at h; cases h
    | some b =>
      rw [hvt] at h
      exact ⟨a, b, rfl, rfl, (Option.some.inj h).symm⟩

theorem parse_array_of_int (f : Nat) (cs : List Char) (idx : Nat) (n : Int)
    (cs1 : List Char) (j1 : Nat) (h : parse_int cs idx = .ok (.Integer n) cs1 j1) :
    parse_array f cs idx = parse_array_loop f n.toNat [] cs1 j1 := by
  rw [parse_array, h]

theorem parse_array_loop_step (fuel k : Nat) (acc : List RespValue) (cs : List Char)
    (idx : Nat) (v : RespValue) (cs1 : List Char) (j1 : Nat)
    (h : parse_next fuel cs idx = .ok v cs1 j1) :
    parse_array_loop fuel (k + 1) acc cs idx = parse_array_loop fuel k (acc ++ [v]) cs1 j1 := by
  rw [parse_array_loop, h]

theorem parse_array_loop_rt (fuel : Nat) (l : List RespValue) :
    ∀ body : List Char, serializeList l = some body →
      (∀ v ∈ l, ∀ cs, v.serialize = some cs → ∀ rest idx, ∃ j,
        parse_next fuel (cs ++ rest) idx = .ok v rest j) →
      ∀ acc rest idx, ∃ j,
        parse_array_loop fuel l.length acc (body ++ rest) idx = .ok (.Array (acc ++ l)) rest j := by
  induction l with
  | nil =>
    intro body hb H acc rest idx
    obtain rfl : body = [] := by
      rw [serializeList] at hb; exact (Option.some.inj hb).symm
    exact ⟨idx, by simp [parse_array_loop]⟩
  | cons v t ih =>
    intro body hb H acc rest idx
    obtain ⟨a, b, hva, hvt, rfl⟩ := serializeList_cons_inv hb
    obtain ⟨j1, hj1⟩ := H v (List.mem_cons_self v t) a hva (b ++ rest) idx
    rw [List.length_cons, List.append_assoc,
      parse_array_loop_step fuel t.length acc _ idx v _ j1 hj1]
    obtain ⟨j, hj⟩ := ih b hvt (fun w hw => H w (List.mem_cons_of_mem v hw)) (acc ++ [v]) rest j1
    refine ⟨j, ?_⟩
    rw [hj]
    simp

theorem roundtrip_aux (fuel : Nat) : ∀ v : RespValue, good v = true → nodes v ≤ fuel →
    ∀ cs, v.serialize = some cs → ∀ rest idx, ∃ j,
      parse_next fuel (cs ++ rest) idx = .ok v rest j := by
  induction fuel with
  | zero =>
    intro v _ hn
    have := nodes_pos v
    omega
  | succ f ih =>
    intro v hg hn cs hs rest idx
    cases v with
    | SimpleString s =>
      rw [RespValue.serialize] at hs
      obtain rfl := Option.some.inj hs
      have hcr : ∀ c ∈ s.data, c ≠ '\r' := by
        rw [good, List.all_eq_true] at hg
        intro c hc
        simpa using hg c hc
      refine ⟨idx + 1 + s.data.length + 2, ?_⟩
      rw [show ('+' :: s.data ++ ['\r', '\n']) ++ rest = '+' :: (s.data ++ '\r' :: '\n' :: rest) from by simp,
        parse_next_tag_ss, parse_simple_string_term s.data hcr [] rest (idx + 1)]
      simp [string_eta]
    | Integer i =>
      rw [RespValue.serialize] at hs
      obtain rfl := Option.some.inj hs
      rw [good, Bool.and_eq_true, decide_eq_true_eq, decide_eq_true_eq] at hg
      refine ⟨idx + 1 + (intToDec i).length + 2, ?_⟩
      rw [show (':' :: intToDec i ++ ['\r', '\n']) ++ rest = ':' :: (intToDec i ++ '\r' :: '\n' :: rest) from by simp,
        parse_next_tag_int, parse_int_rt i hg.1 hg.2 rest (idx + 1)]
    | Boolean b =>
      rw [RespValue.serialize] at hs
      obtain rfl := Option.some.inj hs
      refine ⟨idx + 1 + 3, ?_⟩
      rw [show ('#' :: (if b then 't' else 'f') :: ['\r', '\n']) ++ rest
            = '#' :: ((if b then 't' else 'f') :: '\r' :: '\n' :: rest) from by simp,
        parse_next_tag_bool, parse_bool_rt b rest (idx + 1)]
    | BulkString s =>
      rw [RespValue.serialize] at hs
      obtain rfl := Option.some.inj hs
      rw [good, Bool.and_eq_true, decide_eq_true_eq, decide_eq_true_eq] at hg
      refine ⟨idx + 1 + (natToDec s.utf8ByteSize).length + 2 + s.length + 2, ?_⟩
      rw [show ('$' :: natToDec s.utf8ByteSize ++ ['\r', '\n'] ++ s.data ++ ['\r', '\n']) ++ rest
            = '$' :: (natToDec s.utf8ByteSize ++ '\r' :: '\n' :: (s.data ++ '\r' :: '\n' :: rest)) from by simp,
        parse_next_tag_bulk, parse_bulk_string_rt s hg.1 hg.2 rest (idx + 1)]
    | Array l =>
      rw [RespValue.serialize] at hs
      cases hsl : serializeList l with
      | none => rw [hsl] at hs; cases hs
      | some body =>
        rw [hsl] at hs
        obtain rfl := Option.some.inj hs
        rw [good, Bool.and_eq_true, decide_eq_true_eq] at hg
        rw [nodes] at hn
        have hint := parse_int_rt (l.length : Int) (by omega)
          (by have := hg.1; omega) (body ++ rest) (idx + 1)
        rw [intToDec_ofNat] at hint
        have H : ∀ v ∈ l, ∀ cs, v.serialize = some cs → ∀ rest idx, ∃ j,
            parse_next f (cs ++ rest) idx = .ok v rest j := by
          intro w hw
          exact ih w (goodList_mem hg.2 hw) (le_trans (nodesList_le hw) (by omega))
        obtain ⟨j, hj⟩ := parse_array_loop_rt f l body hsl H [] rest
          (idx + 1 + (natToDec l.length).length + 2)
        refine ⟨j, ?_⟩
        rw [show ('*' :: natToDec l.length ++ ['\r', '\n'] ++ body) ++ rest
              = '*' :: (natToDec l.length ++ '\r' :: '\n' :: (body ++ rest)) from by simp,
          parse_next_tag_arr,
          parse_array_of_int f _ _ (l.length : Int) _ _ hint,
          show ((l.length : Int)).toNat = l.length from by omega, hj]
        simp
    | SimpleError s => simp [good] at hg
    | None => simp [good] at hg
    | Eof => simp [good] at hg

theorem nodes_le_serialized_len : ∀ (k : Nat) (v : RespValue), nodes v ≤ k →
    ∀ cs, v.serialize = some cs → nodes v ≤ cs.length := by
  intro k
  induction k with
  | zero => intro v hn; have := nodes_pos v; omega
  | succ f ih =>
    intro v hn cs hs
    cases v with
    | Array l =>
      rw [RespValue.serialize] at hs
      cases hsl : serializeList l with
      | none => rw [hsl] at hs; cases hs
      | some body =>
        rw [hsl] at hs; obtain rfl := Option.some.inj hs
        rw [nodes] at hn ⊢
        have hlist : ∀ t : List RespValue, (∀ w ∈ t, nodes w ≤ f) →
            ∀ b, serializeList t = some b → nodesList t ≤ b.length := by
          intro t
          induction t with
          | nil => intro _ b hb; simp [nodesList]
          | cons w t2 iht =>
            intro hw b hb
            obtain ⟨a, b2, hwa, hwt, rfl⟩ := serializeList_cons_inv hb
            rw [nodesList]
            have h1 := ih w (hw w (List.mem_cons_self w t2)) a hwa
            have h2 := iht (fun x hx => hw x (List.mem_cons_of_mem w hx)) b2 hwt
            simp only [List.length_append]
            omega
        have hb : nodesList l ≤ body.length :=
          hlist l (fun w hw => le_trans (nodesList_le hw) (by omega)) body hsl
        simp only [List.length_cons, List.length_append]
        omega
    | SimpleString s =>
      rw [RespValue.serialize] at hs; obtain rfl := Option.some.inj hs
      simp [nodes]
    | Integer i =>
      rw [RespValue.serialize] at hs; obtain rfl := Option.some.inj hs
      simp [nodes]
    | Boolean b =>
      rw [RespValue.serialize] at hs; obtain rfl := Option.some.inj hs
      simp [nodes]
    | BulkString s =>
      rw [RespValue.serialize] at hs; obtain rfl := Option.some.inj hs
      simp [nodes]
    | SimpleError s =>
      rw [RespValue.serialize] at hs; obtain rfl := Option.some.inj hs
      simp [nodes]
    | None => rw [RespValue.serialize] at hs; cases hs
    | Eof => rw [RespValue.serialize] at hs; cases hs

theorem resp_roundtrip (v : RespValue) (hg : good v = true)
    (cs : List Char) (hs : v.serialize = some cs) :
    parseValue cs = some v := by
  have hn : nodes v ≤ cs.length + 1 :=
    le_trans (nodes_le_serialized_len (nodes v) v le_rfl cs hs) (by omega)
  obtain ⟨j, hj⟩ := roundtrip_aux (cs.length + 1) v hg hn cs hs [] 0
  rw [List.append_nil] at hj
  rw [parseValue, parse, hj]

theorem storageGet_eq_none_iff (st : Storage) (k : String) :
    storageGet st k = none ↔ k ∉ st.map Prod.fst := by
  induction st with
  | nil => simp [storageGet]
  | cons p t ih =>
    obtain ⟨k', v'⟩ := p
    by_cases hk : k' = k
    · subst hk; simp [storageGet]
    · simp only [storageGet, if_neg hk, ih, List.map_cons, List.mem_cons, not_or]
      have hk2 : ¬ k = k' := fun h => hk h.symm
      tauto

theorem storageGet_filter (p : String × StoredValue → Bool) (st : Storage) (k : String)
    (hnd : (st.map Prod.fst).Nodup) :
    storageGet (st.filter p) k
      = match storageGet st k with
        | some v => if p (k, v) then some v else none
        | none => none := by
  induction st with
  | nil => simp [storageGet]
  | cons q t ih =>
    obtain ⟨k', v'⟩ := q
    rw [List.map_cons, List.nodup_cons] at hnd
    by_cases hk : k' = k
    · subst hk
      by_cases hp : p (k', v')
      · simp [List.filter_cons, hp, storageGet]
      · simp [List.filter_cons, hp, storageGet]
        rw [storageGet_eq_none_iff]
        intro hmem
        obtain ⟨q2, hq2, hfst⟩ := List.mem_map.mp hmem
        exact hnd.1 (List.mem_map.mpr ⟨q2, List.mem_of_mem_filter hq2, hfst⟩)
    · by_cases hp : p (k', v') <;> simp [List.filter_cons, hp, storageGet, hk, ih hnd.2]

theorem nodup_keys_filter (p : String × StoredValue → Bool) (st : Storage)
    (hnd : (st.map Prod.fst).Nodup) : ((st.filter p).map Prod.fst).Nodup :=
  hnd.sublist ((List.filter_sublist st).map Prod.fst)

theorem storageGet_foldl_sweeps (k : String) (v : StoredValue) (hpx : v.px = none) :
    ∀ (nows : List Nat) (st : Storage), (st.map Prod.fst).Nodup →
      storageGet st k = some v →
      storageGet (nows.foldl (fun s n => remove_expired n s) st) k = some v := by
  intro nows
  induction nows with
  | nil => intro st _ h; simpa using h
  | cons n rest ihn =>
    intro st hnd hget
    rw [List.foldl_cons]
    apply ihn (remove_expired n st) (nodup_keys_filter _ st hnd)
    rw [remove_expired, storageGet_filter _ st k hnd, hget]
    simp [pxExpired, hpx]

/-- Claim C1, counterexample: with key `k` stored as `"v"` under expiry
instant 5, at any time after the expiry (e.g. 10) and before a sweep has
run, the `Command::Get` arm replies with the stored value, not with the
absent-value reply (the empty BulkString) the claim requires: the code
performs no expiry check on read. -/
theorem claim_C1_counterexample :
    (5 : Nat) < 10
      ∧ getReplyValue [("k", ⟨"v", some 5⟩)] "k" = .BulkString "v"
      ∧ RespValue.BulkString "v" ≠ RespValue.BulkString "" := by
  refine ⟨by omega, by simp [getReplyValue, storageGet], ?_⟩
  intro h
  injection h with h2
  exact absurd h2 (by decide)

/-- Claim C1, amended: the `Command::Get` arm performs no expiry check —
while the entry is physically present, GET replies with the stored
string even past the expiry instant; the absent-value reply (empty
BulkString) is produced only once `remove_expired` has removed the
entry. -/
theorem claim_C1 (st : Storage) (hnd : (st.map Prod.fst).Nodup) (k : String)
    (v : StoredValue) (hget : storageGet st k = some v) (now t : Nat)
    (hpx : v.px = some t) (hexp : t ≤ now) :
    getReplyValue st k = .BulkString v.value
      ∧ getReplyValue (remove_expired now st) k = .BulkString "" := by
  constructor
  · rw [getReplyValue, hget]
  · have hpe : pxExpired now v = true := by simp [pxExpired, hpx, hexp]
    rw [getReplyValue, remove_expired, storageGet_filter _ st k hnd, hget]
    simp [hpe]

/-- Claim C1, witness for the amended theorem at a concrete store. -/
theorem claim_C1_witness :
    getReplyValue [("k", ⟨"v", some 5⟩)] "k" = .BulkString "v"
      ∧ getReplyValue (remove_expired 10 [("k", ⟨"v", some 5⟩)]) "k" = .BulkString "" :=
  claim_C1 [("k", ⟨"v", some 5⟩)] (by simp) "k" ⟨"v", some 5⟩ (by simp [storageGet])
    10 5 rfl (by omega)

/-- Claim C2, counterexample: the value `SimpleString "\r\n"` is built
only from the claimed constructors, yet serializing and re-parsing it
yields `SimpleString ""`, not the original value (the simple-string
payload is not protected against CR LF). -/
theorem claim_C2_counterexample :
    parse_roundtrip (.SimpleString "\r\n") = some (.SimpleString "")
      ∧ parse_roundtrip (.SimpleString "\r\n") ≠ some (.SimpleString "\r\n") := by
  have h : parse_roundtrip (.SimpleString "\r\n") = some (.SimpleString "") := by
    simp [parse_roundtrip, RespValue.serialize, parseValue, parse, parse_next,
      parse_simple_string, correct_sep, mkErr]
  refine ⟨h, ?_⟩
  rw [h]
  intro h2
  injection h2 with h3
  injection h3 with h4
  exact absurd h4 (by decide)

/-- Claim C2, amended: for every value built from SimpleString / Integer
/ Boolean / BulkString / Array whose SimpleString payloads contain no
CR, whose Integer payloads lie in `i64` range, whose BulkString payloads
have UTF-8 byte length equal to their character count and below `2^64`,
and whose array lengths fit `i64` (the `good` predicate), parsing the
serialization returns exactly the original value. -/
theorem claim_C2 (v : RespValue) (hg : good v = true) (cs : List Char)
    (hs : v.serialize = some cs) : parse_roundtrip v = some v := by
  rw [parse_roundtrip, hs]
  exact resp_roundtrip v hg cs hs

/-- Claim C2, witness: the round trip at a concrete nested array. -/
theorem claim_C2_witness :
    good (.Array [.Integer (-12), .SimpleString "ab", .Boolean true, .Array []]) = true
      ∧ parse_roundtrip (.Array [.Integer (-12), .SimpleString "ab", .Boolean true, .Array []])
        = some (.Array [.Integer (-12), .SimpleString "ab", .Boolean true, .Array []]) := by
  have hg : good (.Array [.Integer (-12), .SimpleString "ab", .Boolean true, .Array []]) = true := by
    simp [good, goodList]
  have hs : (RespValue.Array [.Integer (-12), .SimpleString "ab", .Boolean true, .Array []]).serialize
      = some "*4\r\n:-12\r\n+ab\r\n#t\r\n*0\r\n".data := by
    simp [RespValue.serialize, serializeList, intToDec, natToDec, natDigitsAux, Nat.digitChar]
  exact ⟨hg, claim_C2 _ hg _ hs⟩

/-- Claim C3, counterexample: parsing the simple string `abc` whose
input ends before any CR LF terminator succeeds (consuming the whole
input) instead of failing as the claim requires. -/
theorem claim_C3_counterexample :
    parse "+abc".data = .ok (.SimpleString "abc") [] 4 := by
  simp [parse, parse_next, parse_simple_string, mkErr]

/-- Claim C3, amended: `parse_simple_string` on CR-free payloads either
consumes through a CR LF terminator when one is present, or — when the
input ends before any CR — succeeds anyway, returning the collected
characters with the whole input consumed and no terminator required. -/
theorem claim_C3 (l : List Char) (hl : ∀ c ∈ l, c ≠ '\r') (rest : List Char) (idx : Nat) :
    parse_simple_string (l ++ '\r' :: '\n' :: rest) idx []
        = .ok (.SimpleString ⟨l⟩) rest (idx + l.length + 2)
      ∧ parse_simple_string l idx [] = .ok (.SimpleString ⟨l⟩) [] (idx + l.length) := by
  constructor
  · simpa using parse_simple_string_term l hl [] rest idx
  · simpa using parse_simple_string_eof l hl [] idx

/-- Claim C3, witness at the concrete payload `ab`. -/
theorem claim_C3_witness :
    parse_simple_string (['a', 'b'] ++ '\r' :: '\n' :: []) 0 []
        = .ok (.SimpleString ⟨['a', 'b']⟩) [] (0 + (['a', 'b'] : List Char).length + 2)
      ∧ parse_simple_string ['a', 'b'] 0 []
        = .ok (.SimpleString ⟨['a', 'b']⟩) [] (0 + (['a', 'b'] : List Char).length) :=
  claim_C3 ['a', 'b'] (by decide) [] 0

/-- Claim C4: a bare sign immediately followed by CR LF reaches
`s.parse::<i64>().unwrap()` with the collected string `+` or `-`, and
that unwrap panics — the parser does not return the malformed-integer
`RespError` the claim (and spec) require. -/
theorem claim_C4 :
    parse_int ('+' :: ['\r', '\n']) 0 = .panic
      ∧ parse_int ('-' :: ['\r', '\n']) 0 = .panic
      ∧ parse ":+\r\n".data = .panic
      ∧ parse ":-\r\n".data = .panic := by
  refine ⟨?_, ?_, ?_, ?_⟩ <;>
    simp [parse, parse_next, parse_int, parse_int_go, parse_int_digits,
      correct_sep, rustParseI64, digitsVal, mkErr]

/-- Claim C5, counterexample: the section string `REPLICATION` (equal to
`replication` only case-insensitively) is rejected with a parse error,
not accepted, because `InfoType::from_str` matches the exact lowercase
string. -/
theorem claim_C5_counterexample :
    CommandParser.parse_next 0 [.BulkString "INFO", .BulkString "REPLICATION"]
        = .error ⟨"invalid info specifier REPLICATION"⟩
      ∧ CommandParser.parse_next 0 [.BulkString "INFO", .BulkString "REPLICATION"]
        ≠ .ok (.Info .Replication) := by
  have h : CommandParser.parse_next 0 [.BulkString "INFO", .BulkString "REPLICATION"]
      = .error ⟨"invalid info specifier REPLICATION"⟩ := by
    simp [CommandParser.parse_next, CommandParser.run_command, CommandParser.info,
      CommandParser.toUpperStr, InfoType.from_str]
  exact ⟨h, by rw [h]; exact fun h2 => Except.noConfusion h2⟩

/-- Claim C5, amended: the INFO section parser recognizes exactly the
string `replication`, case-sensitively: that section yields
`Command::Info(Replication)` and every other section string (including
other casings of `replication`) yields a parse error. -/
theorem claim_C5 (now : Nat) (s : String) :
    CommandParser.parse_next now [.BulkString "INFO", .BulkString s]
      = if s = "replication" then .ok (.Info .Replication)
        else .error ⟨"invalid info specifier " ++ s⟩ := by
  by_cases hrepl : s = "replication"
  · subst hrepl
    simp [CommandParser.parse_next, CommandParser.run_command, CommandParser.info,
      CommandParser.toUpperStr, InfoType.from_str]
  · simp [CommandParser.parse_next, CommandParser.run_command, CommandParser.info,
      CommandParser.toUpperStr, InfoType.from_str, hrepl]

/-- Claim C6: in `SET key value PX n`, a positive Integer `n` yields the
absolute expiry `now + n` milliseconds; an Integer `n ≤ 0` or any
non-Integer value after `PX` is an error; without `PX` the stored value
has no expiry. -/
theorem claim_C6 (now : Nat) (k v : String) (n : Int) (x : RespValue) :
    (0 < n →
      CommandParser.parse_next now
          [.BulkString "SET", .BulkString k, .BulkString v, .BulkString "PX", .Integer n]
        = .ok (.Set ⟨k, StoredValue.new v (some (now + n.toNat))⟩))
      ∧ (n ≤ 0 →
        CommandParser.parse_next now
            [.BulkString "SET", .BulkString k, .BulkString v, .BulkString "PX", .Integer n]
          = .error ⟨"expected positive integer after PX in SET"⟩)
      ∧ ((∀ i : Int, x ≠ .Integer i) →
        CommandParser.parse_next now
            [.BulkString "SET", .BulkString k, .BulkString v, .BulkString "PX", x]
          = .error ⟨"expected positive integer after PX in SET"⟩)
      ∧ CommandParser.parse_next now [.BulkString "SET", .BulkString k, .BulkString v]
        = .ok (.Set ⟨k, StoredValue.new v none⟩) := by
  refine ⟨?_, ?_, ?_, ?_⟩
  · intro hn
    simp [CommandParser.parse_next, CommandParser.run_command, CommandParser.set,
      CommandParser.set_value, CommandParser.set_px, CommandParser.set_px_value,
      CommandParser.toUpperStr, hn]
  · intro hn
    simp [CommandParser.parse_next, CommandParser.run_command, CommandParser.set,
      CommandParser.set_value, CommandParser.set_px, CommandParser.set_px_value,
      CommandParser.toUpperStr, show ¬ (0 < n) from by omega]
  · intro hx
    cases x <;>
      first
      | exact absurd rfl (hx _)
      | simp [CommandParser.parse_next, CommandParser.run_command, CommandParser.set,
          CommandParser.set_value, CommandParser.set_px, CommandParser.set_px_value,
          CommandParser.toUpperStr]
  · simp [CommandParser.parse_next, CommandParser.run_command, CommandParser.set,
      CommandParser.set_value, CommandParser.set_px, CommandParser.toUpperStr]

/-- Claim C6, witness at concrete arguments (n = 5, n = 0, a Boolean
after PX, and no PX). -/
theorem claim_C6_witness :
    CommandParser.parse_next 0
        [.BulkString "SET", .BulkString "k", .BulkString "w", .BulkString "PX", .Integer 5]
      = .ok (.Set ⟨"k", StoredValue.new "w" (some (0 + (5 : Int).toNat))⟩)
      ∧ CommandParser.parse_next 0
          [.BulkString "SET", .BulkString "k", .BulkString "w", .BulkString "PX", .Integer 0]
        = .error ⟨"expected positive integer after PX in SET"⟩
      ∧ CommandParser.parse_next 0
          [.BulkString "SET", .BulkString "k", .BulkString "w", .BulkString "PX", .Boolean true]
        = .error ⟨"expected positive integer after PX in SET"⟩
      ∧ CommandParser.parse_next 0 [.BulkString "SET", .BulkString "k", .BulkString "w"]
        = .ok (.Set ⟨"k", StoredValue.new "w" none⟩) :=
  ⟨(claim_C6 0 "k" "w" 5 (.Boolean true)).1 (by omega),
   (claim_C6 0 "k" "w" 0 (.Boolean true)).2.1 (by omega),
   (claim_C6 0 "k" "w" 0 (.Boolean true)).2.2.1 (fun _ h => RespValue.noConfusion h),
   (claim_C6 0 "k" "w" 0 (.Boolean true)).2.2.2⟩

/-- Claim C7: after one `remove_expired` sweep at time `now`, a key is
present iff it was present before with expiry absent or still in the
future; and an entry without expiry survives any number of sweeps. -/
theorem claim_C7 (st : Storage) (hnd : (st.map Prod.fst).Nodup) (now : Nat) (k : String) :
    ((storageGet (remove_expired now st) k).isSome
        ↔ ∃ v, storageGet st k = some v ∧ (v.px = none ∨ ∃ t, v.px = some t ∧ now < t))
      ∧ (∀ v, storageGet st k = some v → v.px = none →
          ∀ nows : List Nat,
            storageGet (nows.foldl (fun s n => remove_expired n s) st) k = some v) := by
  constructor
  · rw [remove_expired, storageGet_filter _ st k hnd]
    cases hget : storageGet st k with
    | none => simp
    | some v =>
      cases hpx : v.px with
      | none => simp [pxExpired, hpx]
      | some t =>
        by_cases hle : t ≤ now
        · simp [pxExpired, hpx, hle]
        · simp [pxExpired, hpx, hle]
          omega
  · intro v hget hpx nows
    exact storageGet_foldl_sweeps k v hpx nows st hnd hget

/-- Claim C7, witness at a concrete two-entry store. -/
theorem claim_C7_witness :
    ((storageGet (remove_expired 5 [("a", ⟨"x", some 3⟩), ("b", ⟨"y", none⟩)]) "a").isSome
        ↔ ∃ v, storageGet [("a", ⟨"x", some 3⟩), ("b", ⟨"y", none⟩)] "a" = some v
            ∧ (v.px = none ∨ ∃ t, v.px = some t ∧ 5 < t))
      ∧ (∀ v, storageGet [("a", ⟨"x", some 3⟩), ("b", ⟨"y", none⟩)] "a" = some v →
          v.px = none → ∀ nows : List Nat,
            storageGet (nows.foldl (fun s n => remove_expired n s)
              [("a", ⟨"x", some 3⟩), ("b", ⟨"y", none⟩)]) "a" = some v) :=
  claim_C7 [("a", ⟨"x", some 3⟩), ("b", ⟨"y", none⟩)] (by simp) 5 "a"

/-- Claim C8: GET on an absent key replies with the serialization of the
empty BulkString, byte-identical to the reply for a key whose stored
value is the empty string: there is no distinguishable no-such-key
signal. -/
theorem claim_C8 (st st2 : Storage) (k k2 : String) (p : Option Nat) (sh sh2 : Bool)
    (repl repl2 : Replication)
    (h1 : storageGet st k = none) (h2 : storageGet st2 k2 = some ⟨"", p⟩) :
    (dispatchCommand (.Get k) ⟨st, sh⟩ repl).2 = (RespValue.BulkString "").serialize
      ∧ (dispatchCommand (.Get k) ⟨st, sh⟩ repl).2
        = (dispatchCommand (.Get k2) ⟨st2, sh2⟩ repl2).2 := by
  have e1 : getReplyValue st k = .BulkString "" := by simp [getReplyValue, h1]
  have e2 : getReplyValue st2 k2 = .BulkString "" := by simp [getReplyValue, h2]
  exact ⟨by simp [dispatchCommand, e1], by simp [dispatchCommand, e1, e2]⟩

/-- Claim C8, witness at a concrete store. -/
theorem claim_C8_witness :
    (dispatchCommand (.Get "absent") ⟨[("x", ⟨"1", none⟩)], false⟩
        ⟨.Master, none, "rid", 0⟩).2 = (RespValue.BulkString "").serialize
      ∧ (dispatchCommand (.Get "absent") ⟨[("x", ⟨"1", none⟩)], false⟩
          ⟨.Master, none, "rid", 0⟩).2
        = (dispatchCommand (.Get "e") ⟨[("e", ⟨"", some 7⟩)], false⟩
            ⟨.Master, none, "rid", 0⟩).2 :=
  claim_C8 [("x", ⟨"1", none⟩)] [("e", ⟨"", some 7⟩)] "absent" "e" (some 7) false false
    ⟨.Master, none, "rid", 0⟩ ⟨.Master, none, "rid", 0⟩
    (by simp [storageGet]) (by simp [storageGet])

/-- Claim C9: dispatching any successfully parsed command other than SET
leaves the storage map unchanged — only the SET arm (and the expiry
sweep) mutate it. -/
theorem claim_C9 (now : Nat) (l : List RespValue) (c : Command)
    (_hparse : CommandParser.parse_next now l = .ok c)
    (hns : ∀ sc, c ≠ .Set sc) (s : ServerSt) (repl : Replication) :
    (dispatchCommand c s repl).1.storage = s.storage := by
  cases c with
  | Set sc => exact absurd rfl (hns sc)
  | Info t => cases t; rfl
  | Ping => rfl
  | Echo v => rfl
  | Llen => rfl
  | Shutdown => rfl
  | Get k => rfl
  | Replconf r => rfl

/-- Claim C9, witness: PING dispatched against a concrete store. -/
theorem claim_C9_witness :
    (dispatchCommand .Ping ⟨[("a", ⟨"b", none⟩)], false⟩ ⟨.Master, none, "rid", 0⟩).1.storage
      = [("a", ⟨"b", none⟩)] :=
  claim_C9 0 [.BulkString "PING"] .Ping
    (by simp [CommandParser.parse_next, CommandParser.run_command, CommandParser.ping,
      CommandParser.toUpperStr])
    (fun _ h => Command.noConfusion h)
    ⟨[("a", ⟨"b", none⟩)], false⟩ ⟨.Master, none, "rid", 0⟩

/-- Claim C10: extra trailing elements after the required arguments are
ignored: PING, SHUTDOWN, GET and SET (the trailing element not being the
`PX` token) parse to the same command with or without the extra
element. -/
theorem claim_C10 (now : Nat) (k v : String) (x : RespValue)
    (hx1 : x ≠ .BulkString "PX") (hx2 : x ≠ .SimpleString "PX") :
    CommandParser.parse_next now [.BulkString "PING", x] = .ok .Ping
      ∧ CommandParser.parse_next now [.BulkString "PING"] = .ok .Ping
      ∧ CommandParser.parse_next now [.BulkString "SHUTDOWN", x] = .ok .Shutdown
      ∧ CommandParser.parse_next now [.BulkString "SHUTDOWN"] = .ok .Shutdown
      ∧ CommandParser.parse_next now [.BulkString "GET", .BulkString k, x] = .ok (.Get k)
      ∧ CommandParser.parse_next now [.BulkString "GET", .BulkString k] = .ok (.Get k)
      ∧ CommandParser.parse_next now [.BulkString "SET", .BulkString k, .BulkString v, x]
        = .ok (.Set ⟨k, StoredValue.new v none⟩)
      ∧ CommandParser.parse_next now [.BulkString "SET", .BulkString k, .BulkString v]
        = .ok (.Set ⟨k, StoredValue.new v none⟩) := by
  refine ⟨?_, ?_, ?_, ?_, ?_, ?_, ?_, ?_⟩
  · simp [CommandParser.parse_next, CommandParser.run_command, CommandParser.ping,
      CommandParser.toUpperStr]
  · simp [CommandParser.parse_next, CommandParser.run_command, CommandParser.ping,
      CommandParser.toUpperStr]
  · simp [CommandParser.parse_next, CommandParser.run_command, CommandParser.shutdown,
      CommandParser.toUpperStr]
  · simp [CommandParser.parse_next, CommandParser.run_command, CommandParser.shutdown,
      CommandParser.toUpperStr]
  · simp [CommandParser.parse_next, CommandParser.run_command, CommandParser.get,
      CommandParser.toUpperStr]
  · simp [CommandParser.parse_next, CommandParser.run_command, CommandParser.get,
      CommandParser.toUpperStr]
  · cases x with
    | BulkString s =>
      have hs : ¬ (s = "PX") := fun h => hx1 (by rw [h])
      simp [CommandParser.parse_next, CommandParser.run_command, CommandParser.set,
        CommandParser.set_value, CommandParser.set_px, CommandParser.toUpperStr, hs]
    | SimpleString s =>
      have hs : ¬ (s = "PX") := fun h => hx2 (by rw [h])
      simp [CommandParser.parse_next, CommandParser.run_command, CommandParser.set,
        CommandParser.set_value, CommandParser.set_px, CommandParser.toUpperStr, hs]
    | Array l2 =>
      simp [CommandParser.parse_next, CommandParser.run_command, CommandParser.set,
        CommandParser.set_value, CommandParser.set_px, CommandParser.toUpperStr]
    | Integer i =>
      simp [CommandParser.parse_next, CommandParser.run_command, CommandParser.set,
        CommandParser.set_value, CommandParser.set_px, CommandParser.toUpperStr]
    | Boolean b =>
      simp [CommandParser.parse_next, CommandParser.run_command, CommandParser.set,
        CommandParser.set_value, CommandParser.set_px, CommandParser.toUpperStr]
    | SimpleError s =>
      simp [CommandParser.parse_next, CommandParser.run_command, CommandParser.set,
        CommandParser.set_value, CommandParser.set_px, CommandParser.toUpperStr]
    | None =>
      simp [CommandParser.parse_next, CommandParser.run_command, CommandParser.set,
        CommandParser.set_value, CommandParser.set_px, CommandParser.toUpperStr]
    | Eof =>
      simp [CommandParser.parse_next, CommandParser.run_command, CommandParser.set,
        CommandParser.set_value, CommandParser.set_px, CommandParser.toUpperStr]
  · simp [CommandParser.parse_next, CommandParser.run_command, CommandParser.set,
      CommandParser.set_value, CommandParser.set_px, CommandParser.toUpperStr]

/-- Claim C10, witness with the extra trailing element `Integer 7`. -/
theorem claim_C10_witness :
    CommandParser.parse_next 0 [.BulkString "PING", .Integer 7] = .ok .Ping
      ∧ CommandParser.parse_next 0 [.BulkString "PING"] = .ok .Ping
      ∧ CommandParser.parse_next 0 [.BulkString "SHUTDOWN", .Integer 7] = .ok .Shutdown
      ∧ CommandParser.parse_next 0 [.BulkString "SHUTDOWN"] = .ok .Shutdown
      ∧ CommandParser.parse_next 0 [.BulkString "GET", .BulkString "k", .Integer 7] = .ok (.Get "k")
      ∧ CommandParser.parse_next 0 [.BulkString "GET", .BulkString "k"] = .ok (.Get "k")
      ∧ CommandParser.parse_next 0 [.BulkString "SET", .BulkString "k", .BulkString "w", .Integer 7]
        = .ok (.Set ⟨"k", StoredValue.new "w" none⟩)
      ∧ CommandParser.parse_next 0 [.BulkString "SET", .BulkString "k", .BulkString "w"]
        = .ok (.Set ⟨"k", StoredValue.new "w" none⟩) :=
  claim_C10 0 "k" "w" (.Integer 7)
    (fun h => RespValue.noConfusion h) (fun h => RespValue.noConfusion h)

end CCRedis

